import Mathlib

/-!
Verification development for the Booner_MCP orchestration core.

The definitions below are shallow embeddings of the Python source:
* `mcp_connector.py` — the `MCPConnector` class (server registry, running-server
  table, `start_server`, `stop_server`, `start_all_servers`,
  `get_available_servers`, `_load_config`);
* `app_with_websockets.py` — the background task executor (`run_agent_task`),
  the task-status endpoint (`get_task_status`), the task-updates broadcast loop
  (`broadcast_task_updates`), and `ConnectionManager.broadcast`.

Python dictionaries are modelled as association lists with insert-overwrite
semantics; the asyncio event loop is modelled by treating each await-free code
segment as one atomic step.  Fallible collaborators (process spawn, process
termination, agent method calls, websocket sends) are parameters of the
embedding, so each theorem quantifies over their outcomes.
-/

/-! ## Dictionary helpers (Python dict on string keys) -/

/-- Python `d[k]` / `k in d` on an association list. -/
def alookup {α : Type} : List (String × α) → String → Option α
  | [], _ => none
  | p :: rest, k => if p.1 = k then some p.2 else alookup rest k

/-- Python dict assignment: overwrite the entry if the key is present,
otherwise append it (dicts preserve insertion order). -/
def dictInsert {α : Type} (l : List (String × α)) (k : String) (v : α) :
    List (String × α) :=
  if (alookup l k).isSome then
    l.map (fun p => if p.1 = k then (k, v) else p)
  else
    l ++ [(k, v)]

/-- Python `del d[k]`. -/
def dictRemove {α : Type} (l : List (String × α)) (k : String) :
    List (String × α) :=
  l.filter (fun p => !(p.1 == k))

/-- Number of entries stored under key `k`. -/
def countKey {α : Type} (l : List (String × α)) (k : String) : Nat :=
  (l.filter (fun p => p.1 == k)).length

/-! ## Server registry (`mcp_config.json`, `mcp_connector.py` lines 14–34) -/

/-- One entry of the `servers` mapping.  The `enabled` key may be absent from
the JSON object, which the code reads as `server_config.get("enabled", True)`
(line 55); we keep the raw optional field. -/
structure ServerConfig where
  command : String
  args : List String
  enabled : Option Bool
  deriving DecidableEq, Repr

/-- `server_config.get("enabled", True)` (lines 55 and 136). -/
def ServerConfig.isEnabled (c : ServerConfig) : Bool :=
  c.enabled.getD true

/-- The loaded configuration: `config["mcp"]["servers"]`. -/
structure MCPConfig where
  servers : List (String × ServerConfig)
  deriving DecidableEq, Repr

/-! ### Raw configuration values

`json.load` returns an arbitrary Python value; `_load_config` stores it in
`self.config` without any schema check.  The typed `MCPConfig` above is the
well-shaped special case the connector operations assume; to settle what
happens on schema-violating configurations we also embed the raw value and
the Python operations the source applies to it. -/

/-- A Python value as produced by `json.load`. -/
inductive PyVal
  | str (s : String)
  | num (n : Int)
  | bool (b : Bool)
  | null
  | list (items : List PyVal)
  | dict (entries : List (String × PyVal))

/-- The Python exceptions the config accesses can raise. -/
inductive PyErr
  | keyError (key : String)
  | attributeError (attr : String)
  | typeError (msg : String)
  deriving DecidableEq, Repr

/-- Python truthiness, as tested by `if not server_config.get(...)`. -/
def PyVal.truthy : PyVal → Bool
  | .str s => s ≠ ""
  | .num n => n ≠ 0
  | .bool b => b
  | .null => false
  | .list xs => !xs.isEmpty
  | .dict es => !es.isEmpty

/-- Python `v[k]` with a string key: a `KeyError` on a dict without the key,
a `TypeError` on every non-dict (string indices must be integers / value not
subscriptable). -/
def PyVal.getItem : PyVal → String → Except PyErr PyVal
  | .dict es, k =>
    match alookup es k with
    | some v => Except.ok v
    | none => Except.error (.keyError k)
  | _, _ => Except.error (.typeError "value is not subscriptable by string")

/-- Python `k in v` for a string `k`: key lookup on a dict, element equality
on a list, substring test on a string, `TypeError` otherwise. -/
def PyVal.containsKey : PyVal → String → Except PyErr Bool
  | .dict es, k => Except.ok (alookup es k).isSome
  | .list xs, k =>
    Except.ok (xs.any (fun v => match v with | .str s => s == k | _ => false))
  | .str s, k => Except.ok (decide (List.IsInfix k.data s.data))
  | _, _ => Except.error (.typeError "argument is not iterable")

/-- Python `v.keys()`: only dicts have the attribute. -/
def PyVal.pykeys : PyVal → Except PyErr (List String)
  | .dict es => Except.ok (es.map (fun p => p.1))
  | _ => Except.error (.attributeError "keys")

/-- The fallback value returned by `_load_config` on a caught error
(line 34): `{"mcp": {"servers": {}}}`. -/
def defaultConfigVal : PyVal :=
  .dict [("mcp", .dict [("servers", .dict [])])]

/-- Outcome of reading and parsing the configuration file: `open` raised, or
`json.load` raised, or `json.load` returned a value of arbitrary shape. -/
inductive ConfigSource
  | missing
  | unparseable (err : String)
  | parsed (v : PyVal)

/-- `MCPConnector._load_config` (lines 27–34): the `try` covers exactly the
`open` and `json.load` calls, so only a missing/unreadable file or a parse
failure degrades to the default; any value that parses — schema-conforming
or not — is stored unchecked. -/
def load_config : ConfigSource → PyVal
  | .missing => defaultConfigVal
  | .unparseable _ => defaultConfigVal
  | .parsed v => v

/-! ## Connector state and operations (`mcp_connector.py` lines 36–160) -/

/-- One `running_servers` entry (lines 67–71). -/
structure RunningProcess where
  pid : Nat
  command : List String
  startedAt : Nat
  deriving DecidableEq, Repr

/-- The mutable state of an `MCPConnector`: the immutable-after-load config and
the `running_servers` dict. -/
structure ConnState where
  config : MCPConfig
  running : List (String × RunningProcess)
  deriving DecidableEq, Repr

/-- Result of `await asyncio.create_subprocess_exec(...)` (lines 61–65):
either a process handle or a raised exception. -/
inductive SpawnOutcome
  | ok (pid : Nat)
  | fail (msg : String)
  deriving DecidableEq, Repr

/-- Result record for `start_server`: the returned boolean, the connector state
afterwards, and whether a subprocess was actually created. -/
structure StartResult where
  result : Bool
  state : ConnState
  launched : Bool
  deriving DecidableEq, Repr

/-- `MCPConnector.start_server` (lines 36–81).  The branches appear in source
order: unknown name (line 46), already running (line 50), disabled (line 55),
then the spawn attempt whose exception branch returns false (lines 59–81). -/
def start_server (st : ConnState) (name : String) (now : Nat)
    (spawn : SpawnOutcome) : StartResult :=
  match alookup st.config.servers name with
  | none => ⟨false, st, false⟩
  | some sc =>
    if (alookup st.running name).isSome then
      ⟨true, st, false⟩
    else if sc.isEnabled = false then
      ⟨false, st, false⟩
    else
      match spawn with
      | .ok pid =>
        ⟨true,
         { st with running :=
             dictInsert st.running name ⟨pid, sc.command :: sc.args, now⟩ },
         true⟩
      | .fail _ => ⟨false, st, false⟩

/-- Observable actions of `stop_server` on the process handle. -/
inductive StopEvent
  | terminate
  | waitGrace (secs : Nat)
  | kill
  | waitExit
  deriving DecidableEq, Repr

/-- How the tracked process reacts to a stop request: it exits within the
grace period, it ignores SIGTERM and dies on SIGKILL, or termination raises
so that exit is never confirmed. -/
inductive ProcBehavior
  | exitsInGrace
  | exitsOnKill
  | uncontrollable (msg : String)
  deriving DecidableEq, Repr

/-- Result record for `stop_server`. -/
structure StopResult where
  result : Bool
  state : ConnState
  events : List StopEvent
  deriving DecidableEq, Repr

/-- `MCPConnector.stop_server` (lines 93–125): untracked names return true
immediately (lines 103–105); otherwise `terminate()` then a 5-second
`wait_for`, falling back to `kill()` and an unbounded wait (lines 111–117);
the entry is deleted only after the wait returns (line 119); any exception is
caught and false is returned with the entry left in place (lines 123–125). -/
def stop_server (st : ConnState) (name : String) (beh : ProcBehavior) :
    StopResult :=
  if (alookup st.running name).isNone then
    ⟨true, st, []⟩
  else
    match beh with
    | .exitsInGrace =>
      ⟨true, { st with running := dictRemove st.running name },
       [.terminate, .waitGrace 5]⟩
    | .exitsOnKill =>
      ⟨true, { st with running := dictRemove st.running name },
       [.terminate, .waitGrace 5, .kill, .waitExit]⟩
    | .uncontrollable _ =>
      ⟨false, st, [.terminate]⟩

/-- Loop body of `start_all_servers` (lines 135–137): skip entries whose
`enabled` defaults to false, otherwise call `start_server` and record the
boolean under the server's name. -/
def startAllStep (now : Nat) (spawn : String → SpawnOutcome)
    (acc : List (String × Bool) × ConnState) (entry : String × ServerConfig) :
    List (String × Bool) × ConnState :=
  if entry.2.isEnabled then
    let r := start_server acc.2 entry.1 now (spawn entry.1)
    (dictInsert acc.1 entry.1 r.result, r.state)
  else acc

/-- `MCPConnector.start_all_servers` (lines 127–139): iterate the registry in
order, attempt `start_server` for every entry whose `enabled` defaults to
true, and collect the per-name booleans. -/
def start_all_servers (st : ConnState) (now : Nat)
    (spawn : String → SpawnOutcome) :
    List (String × Bool) × ConnState :=
  st.config.servers.foldl (startAllStep now spawn) ([], st)

/-- `MCPConnector.get_available_servers` (lines 158–160). -/
def get_available_servers (st : ConnState) : List String :=
  st.config.servers.map (fun p => p.1)

/-- `MCPConnector.get_running_servers` (lines 154–156). -/
def get_running_servers (st : ConnState) : List String :=
  st.running.map (fun p => p.1)

/-! ### Connector operations over the raw configuration value

These re-trace `get_available_servers` and `start_server` on the unchecked
`self.config`, making explicit which accesses sit outside a `try` and can
therefore raise out of the method. -/

/-- `MCPConnector.get_available_servers` (lines 158–160) on the raw config:
`list(self.config["mcp"]["servers"].keys())` — the subscripts raise KeyError
or TypeError on a wrong shape and `.keys()` raises AttributeError on a
non-dict, none of them caught. -/
def get_available_servers_raw (config : PyVal) :
    Except PyErr (List String) := do
  let mcp ← config.getItem "mcp"
  let servers ← mcp.getItem "servers"
  servers.pykeys

/-- Result of a `start_server` call on the raw config that did not raise:
the returned boolean, the `running_servers` dict afterwards, and whether a
subprocess was created. -/
structure RawStartResult where
  result : Bool
  running : List (String × RunningProcess)
  launched : Bool
  deriving DecidableEq, Repr

/-- All-strings check on the `args` list: a non-string element makes
`create_subprocess_exec` raise inside the `try`. -/
def allStrs : List PyVal → Option (List String)
  | [] => some []
  | .str s :: rest =>
    match allStrs rest with
    | some xs => some (s :: xs)
    | none => none
  | _ => none

/-- Lines 60–65, inside the `try`:
`[server_config["command"]] + server_config["args"]` and the subprocess
launch.  A missing key, a non-string command, a non-list `args` or a
non-string argument all raise inside the `try` and are caught at line 79
(returning false), so they collapse to `none` here. -/
def commandLine (sc : List (String × PyVal)) : Option (List String) :=
  match alookup sc "command", alookup sc "args" with
  | some (.str c), some (.list xs) =>
    match allStrs xs with
    | some as => some (c :: as)
    | none => none
  | _, _ => none

/-- `MCPConnector.start_server` (lines 36–81) on the raw config.  The
accesses at lines 46 (`server_name not in self.config["mcp"]["servers"]`),
54 (`servers[server_name]`) and 55 (`server_config.get("enabled", True)`)
happen before or outside the `try`, so they raise out of the coroutine on a
schema-violating config; only the spawn block (lines 59–81) converts its
exceptions to a false return. -/
def start_server_raw (config : PyVal)
    (running : List (String × RunningProcess)) (name : String) (now : Nat)
    (spawn : SpawnOutcome) : Except PyErr RawStartResult := do
  let mcp ← config.getItem "mcp"
  let servers ← mcp.getItem "servers"
  let present ← servers.containsKey name
  if present = false then
    return ⟨false, running, false⟩
  else if (alookup running name).isSome then
    return ⟨true, running, false⟩
  else do
    let sc ← servers.getItem name
    let entries ←
      match sc with
      | .dict es => Except.ok es
      | _ => Except.error (PyErr.attributeError "get")
    let enabled := (alookup entries "enabled").getD (.bool true)
    if enabled.truthy = false then
      return ⟨false, running, false⟩
    else
      match commandLine entries with
      | none => return ⟨false, running, false⟩
      | some cmd =>
        match spawn with
        | .ok pid =>
          return ⟨true, dictInsert running name ⟨pid, cmd, now⟩, true⟩
        | .fail _ => return ⟨false, running, false⟩

/-- Registry check used by the reachability invariant: the name is present and
its descriptor enabled. -/
def enabledInRegistry (cfg : MCPConfig) (n : String) : Bool :=
  match alookup cfg.servers n with
  | some sc => sc.isEnabled
  | none => false

/-- Reachability invariant of the connector: every tracked running server is
present in the registry with an enabled descriptor.  It holds initially
(`running_servers = {}`) and is preserved by `start_server` and `stop_server`,
because only the enabled branch of `start_server` inserts entries and the
config is immutable after load. -/
def RunningEnabled (st : ConnState) : Prop :=
  ∀ p ∈ st.running, enabledInRegistry st.config p.1 = true

instance (st : ConnState) : Decidable (RunningEnabled st) :=
  List.decidableBAll _ st.running

/-! ## Interleaving model of two concurrent `start_server` calls (C7)

`start_server` runs on the asyncio event loop: the code from the registry and
`running_servers` checks (lines 46–57) up to the beginning of
`await asyncio.create_subprocess_exec` (line 61) is one atomic segment, and
the code after that await — recording the entry (line 67) and returning true
(line 77) — is a second atomic segment.  The subprocess comes into existence
during the await.  We model an in-flight call by a phase and the shared state
by the `running_servers` entry for the contested (registered, enabled) name
together with a count of processes created. -/

/-- Phase of one in-flight `start_server` call for the contested name. -/
inductive StartPhase
  | ready
  | spawning (pid : Nat)
  | done (result : Bool) (launched : Bool)
  deriving DecidableEq, Repr

/-- Shared state of the race: the `running_servers` entry for the name (the
pid it records), the number of subprocesses created so far, and the phases of
the two calls. -/
structure RaceState where
  tracked : Option Nat
  launches : Nat
  a : StartPhase
  b : StartPhase
  deriving DecidableEq, Repr

/-- One atomic segment of a call whose subprocess would get pid `pid`:
from `ready`, the line-50 check either returns true at once (name tracked) or
suspends into the spawn await; from `spawning`, the post-await segment counts
the created process, overwrites the dict entry, and returns true. -/
def phaseStep (pid : Nat) (ph : StartPhase) (tracked : Option Nat)
    (launches : Nat) : StartPhase × Option Nat × Nat :=
  match ph with
  | .ready =>
    if tracked.isSome then (.done true false, tracked, launches)
    else (.spawning pid, tracked, launches)
  | .spawning p => (.done true true, some p, launches + 1)
  | .done r l => (.done r l, tracked, launches)

/-- Scheduler step: run one atomic segment of call A (pid 1) or call B
(pid 2). -/
def raceStep (st : RaceState) (pickA : Bool) : RaceState :=
  if pickA then
    let r := phaseStep 1 st.a st.tracked st.launches
    { st with a := r.1, tracked := r.2.1, launches := r.2.2 }
  else
    let r := phaseStep 2 st.b st.tracked st.launches
    { st with b := r.1, tracked := r.2.1, launches := r.2.2 }

/-- Run a schedule (a list of scheduler picks). -/
def raceExec (sched : List Bool) : RaceState :=
  sched.foldl raceStep ⟨none, 0, .ready, .ready⟩

/-! ## Task executor (`app_with_websockets.py` lines 218–244, 298–309) -/

/-- One `active_tasks` record: `{"status": ..., "result"?: ..., "error"?: ...}`.
`result`/`error` absent from the dict are `none` (the endpoint reads them with
`.get`, lines 307–308).  The result value is kept opaque as a string. -/
structure TaskRecord where
  status : String
  result : Option String
  error : Option String
  deriving DecidableEq, Repr

/-- The record created at submission (e.g. line 315):
`active_tasks[task_id] = {"status": "queued"}`. -/
def initRecord : TaskRecord := ⟨"queued", none, none⟩

/-- Outcome of `await method(**kwargs)` (line 233): a returned result or a
raised exception rendered by `str(e)`. -/
inductive MethodOutcome
  | success (result : String)
  | failure (msg : String)
  deriving DecidableEq, Repr

/-- An agent as `run_agent_task` sees it: the methods reachable by
`getattr(agent, method_name)` together with the outcome calling each would
produce. -/
structure AgentModel where
  methods : List (String × MethodOutcome)
  deriving DecidableEq, Repr

/-- `run_agent_task` (lines 218–244) as the sequence of values taken by
`active_tasks[task_id]`, one per mutation of the record.

Line 220 first sets the status to "running".  An unknown agent (line 225) or
unknown method (line 230) raises `ValueError`, and a failing method call
raises; all are caught at line 241 and the record becomes failed with
`error = str(e)` (lines 243–244).  A successful call sets completed and the
result (lines 236–237).  Each terminal update writes its status and
result/error fields in one await-free segment, so it is one list element. -/
def run_agent_task (agents : List (String × AgentModel))
    (agentName methodName : String) (r0 : TaskRecord) : List TaskRecord :=
  let r1 : TaskRecord := { r0 with status := "running" }
  match alookup agents agentName with
  | none =>
    [r1, { r1 with status := "failed",
                   error := some ("Unknown agent: " ++ agentName) }]
  | some ag =>
    match alookup ag.methods methodName with
    | none =>
      [r1, { r1 with status := "failed",
                     error := some ("Unknown method: " ++ methodName
                                    ++ " for agent " ++ agentName) }]
    | some (.failure msg) =>
      [r1, { r1 with status := "failed", error := some msg }]
    | some (.success res) =>
      [r1, { r1 with status := "completed", result := some res }]

/-- The full history of a submitted task's record: the queued record deposited
by the endpoint, then every mutation made by `run_agent_task`. -/
def taskTrace (agents : List (String × AgentModel))
    (agentName methodName : String) : List TaskRecord :=
  initRecord :: run_agent_task agents agentName methodName initRecord

/-- The record once `run_agent_task` has finished. -/
def finalTask (agents : List (String × AgentModel))
    (agentName methodName : String) : TaskRecord :=
  (taskTrace agents agentName methodName).getLastD initRecord

/-- The transitions of the task state machine:
queued → running, running → completed, running → failed. -/
def stepOK (r s : TaskRecord) : Prop :=
  (r.status = "queued" ∧ s.status = "running") ∨
  (r.status = "running" ∧ (s.status = "completed" ∨ s.status = "failed"))

/-- A record in a terminal status. -/
def isTerminalRec (r : TaskRecord) : Bool :=
  r.status == "completed" || r.status == "failed"

/-- The 404 error raised by the status endpoint (line 301). -/
structure HTTPError where
  statusCode : Nat
  detail : String
  deriving DecidableEq, Repr

/-- The response model `TaskStatusResponse` (lines 116–120). -/
structure TaskStatusResponse where
  taskId : String
  status : String
  result : Option String
  error : Option String
  deriving DecidableEq, Repr

/-- `get_task_status` (lines 298–309): 404 for an unknown id, otherwise the
record's status together with `result`/`error` read via `.get`. -/
def get_task_status (tasks : List (String × TaskRecord)) (taskId : String) :
    Except HTTPError TaskStatusResponse :=
  match alookup tasks taskId with
  | none => .error ⟨404, "Task " ++ taskId ++ " not found"⟩
  | some t => .ok ⟨taskId, t.status, t.result, t.error⟩

/-! ## Task-updates broadcast loop (`app_with_websockets.py` lines 198–215)

Python stores the task records as separate dict objects referenced from
`active_tasks`; `last_tasks = active_tasks.copy()` (line 209) is a *shallow*
copy, so after a broadcast both dicts reference the same record objects.  We
make the sharing explicit with a heap of records addressed by reference, and
maps from task id to reference.  The comparison `active_tasks != last_tasks`
(line 203) is Python structural dict inequality, which dereferences: it
compares the two maps after looking the records up in the current heap. -/

/-- State of the `broadcast_task_updates` loop together with the shared task
records.  `broadcasts` is the log of structural snapshots handed to
`task_status_manager.broadcast` (line 206), newest last. -/
structure LoopState where
  heap : List TaskRecord
  tasks : List (String × Nat)
  lastTasks : List (String × Nat)
  connections : Nat
  broadcasts : List (List (String × TaskRecord))
  deriving DecidableEq, Repr

/-- Dereference a task map through the heap: the structural value Python's
`!=` and `json.dumps` see. -/
def snapshotOf (heap : List TaskRecord) (m : List (String × Nat)) :
    List (String × TaskRecord) :=
  m.map (fun p => (p.1, heap.getD p.2 initRecord))

/-- One iteration of the `while True` loop (lines 202–215) in which no send
raises: broadcast when a client is connected and `active_tasks != last_tasks`
(line 203), then `last_tasks = active_tasks.copy()` — the shallow copy keeps
the references, not the record values (line 209). -/
def updatesTick (st : LoopState) : LoopState :=
  if st.connections ≠ 0 ∧
      snapshotOf st.heap st.tasks ≠ snapshotOf st.heap st.lastTasks then
    { st with
        broadcasts := st.broadcasts ++ [snapshotOf st.heap st.tasks],
        lastTasks := st.tasks }
  else st

/-- An in-place mutation of one shared task record, as `run_agent_task`
performs with `active_tasks[task_id]["status"] = ...` (lines 220, 236, 243):
the heap cell changes, every map referencing it sees the new value. -/
def mutateRecord (st : LoopState) (ref : Nat) (r : TaskRecord) : LoopState :=
  { st with heap := st.heap.set ref r }

/-- The structural value most recently handed to `broadcast`, if any:
what the spec calls the last snapshot successfully broadcast. -/
def lastBroadcastValue (st : LoopState) : Option (List (String × TaskRecord)) :=
  st.broadcasts.getLast?

/-! ## `ConnectionManager.broadcast` (`app_with_websockets.py` lines 46–48) -/

/-- One websocket in `active_connections`, with the outcome its next
`send_text` would have. -/
structure ConnModel where
  id : Nat
  sendOk : Bool
  deriving DecidableEq, Repr

/-- What one call of `ConnectionManager.broadcast` does: the ids delivered to,
in order, and the id whose send raised, if any. -/
structure BroadcastOutcome where
  delivered : List Nat
  raised : Option Nat
  connsAfter : List ConnModel
  deriving DecidableEq, Repr

/-- The loop body of `broadcast` (lines 46–48): `await connection.send_text`
for each connection in order, with no try/except — the first failing send
raises out of `broadcast`, the remaining connections receive nothing, and
`active_connections` is never modified by this method. -/
def cm_broadcast : List ConnModel → BroadcastOutcome
  | [] => ⟨[], none, []⟩
  | c :: rest =>
    if c.sendOk then
      let r := cm_broadcast rest
      ⟨c.id :: r.delivered, r.raised, c :: r.connsAfter⟩
    else
      ⟨[], some c.id, c :: rest⟩


/-! ## Association-list lemmas -/

theorem mem_of_alookup_isSome {α : Type} {l : List (String × α)} {k : String}
    (h : (alookup l k).isSome) : ∃ v, (k, v) ∈ l := by
  induction l with
  | nil => simp [alookup] at h
  | cons p rest ih =>
    by_cases hk : p.1 = k
    · subst hk
      exact ⟨p.2, by simp⟩
    · simp only [alookup, hk, if_false] at h
      obtain ⟨v, hv⟩ := ih h
      exact ⟨v, List.mem_cons_of_mem _ hv⟩

theorem alookup_append_right {α : Type} {l1 : List (String × α)}
    (l2 : List (String × α)) {k : String} (h : alookup l1 k = none) :
    alookup (l1 ++ l2) k = alookup l2 k := by
  induction l1 with
  | nil => simp
  | cons p rest ih =>
    by_cases hk : p.1 = k
    · simp [alookup, hk] at h
    · simp only [alookup, hk, if_false] at h
      simpa [alookup, hk] using ih h

theorem alookup_overwrite_self {α : Type} {l : List (String × α)}
    {k : String} (v : α) (h : (alookup l k).isSome) :
    alookup (l.map (fun p => if p.1 = k then (k, v) else p)) k = some v := by
  induction l with
  | nil => simp [alookup] at h
  | cons p rest ih =>
    by_cases hk : p.1 = k
    · simp [alookup, hk]
    · simp only [alookup, hk, if_false] at h
      simpa [alookup, hk] using ih h

theorem alookup_overwrite_ne {α : Type} (l : List (String × α))
    (k m : String) (v : α) (hne : m ≠ k) :
    alookup (l.map (fun p => if p.1 = k then (k, v) else p)) m =
      alookup l m := by
  induction l with
  | nil => simp
  | cons p rest ih =>
    by_cases hk : p.1 = k
    · have hpm : ¬ p.1 = m := by rw [hk]; exact fun hkm => hne hkm.symm
      simp [alookup, hk, Ne.symm hne, hpm, ih]
    · by_cases hm : p.1 = m
      · simp [alookup, hk, hm, hne]
      · simp [alookup, hk, hm, ih]

theorem alookup_dictInsert_self {α : Type} (l : List (String × α))
    (k : String) (v : α) : alookup (dictInsert l k v) k = some v := by
  unfold dictInsert
  by_cases h : (alookup l k).isSome
  · simp only [h, if_true]
    exact alookup_overwrite_self v h
  · have hnone : alookup l k = none := by
      cases hl : alookup l k with
      | none => rfl
      | some w => rw [hl] at h; simp at h
    simp only [hnone, Option.isSome_none, Bool.false_eq_true, if_false]
    rw [alookup_append_right _ hnone]
    simp [alookup]

theorem alookup_dictInsert_ne {α : Type} (l : List (String × α))
    (k m : String) (v : α) (hne : m ≠ k) :
    alookup (dictInsert l k v) m = alookup l m := by
  unfold dictInsert
  by_cases h : (alookup l k).isSome
  · simp only [h, if_true]
    exact alookup_overwrite_ne l k m v hne
  · simp only [h, if_false]
    induction l with
    | nil => simp [alookup, Ne.symm hne]
    | cons p rest ih =>
      by_cases hm : p.1 = m
      · simp [alookup, hm]
      · by_cases hk : p.1 = k
        · simp [alookup, hk] at h
        · simp only [alookup, hk, if_false] at h
          simpa [alookup, hm] using ih h

theorem countKey_eq_zero_of_alookup_none {α : Type} {l : List (String × α)}
    {k : String} (h : alookup l k = none) : countKey l k = 0 := by
  induction l with
  | nil => simp [countKey]
  | cons p rest ih =>
    by_cases hk : p.1 = k
    · simp [alookup, hk] at h
    · simp only [alookup, hk, if_false] at h
      have := ih h
      simp only [countKey, List.filter_cons] at this ⊢
      simp [hk, this]

theorem countKey_dictInsert_of_alookup_none {α : Type}
    (l : List (String × α)) (k : String) (v : α)
    (h : alookup l k = none) : countKey (dictInsert l k v) k = 1 := by
  unfold dictInsert
  simp only [h, Option.isSome_none, Bool.false_eq_true, if_false]
  have h0 : countKey l k = 0 := countKey_eq_zero_of_alookup_none h
  simp only [countKey, List.filter_append, List.length_append] at h0 ⊢
  simp [h0]

theorem alookup_dictRemove_self {α : Type} (l : List (String × α))
    (k : String) : alookup (dictRemove l k) k = none := by
  induction l with
  | nil => simp [dictRemove, alookup]
  | cons p rest ih =>
    unfold dictRemove at ih ⊢
    rw [List.filter_cons]
    by_cases hk : p.1 = k
    · simp only [hk, beq_self_eq_true, Bool.not_true, if_false]
      exact ih
    · have hb : (p.1 == k) = false := by simp [hk]
      simp only [hb, Bool.not_false, if_true]
      simpa [alookup, hk] using ih

theorem alookup_dictRemove_ne {α : Type} (l : List (String × α))
    (k m : String) (hne : m ≠ k) :
    alookup (dictRemove l k) m = alookup l m := by
  induction l with
  | nil => simp [dictRemove]
  | cons p rest ih =>
    unfold dictRemove at ih ⊢
    rw [List.filter_cons]
    by_cases hk : p.1 = k
    · have hpm : ¬ p.1 = m := by rw [hk]; exact fun hkm => hne hkm.symm
      simp only [hk, beq_self_eq_true, Bool.not_true, if_false]
      simpa [alookup, hpm] using ih
    · have hb : (p.1 == k) = false := by simp [hk]
      simp only [hb, Bool.not_false, if_true]
      by_cases hm : p.1 = m
      · simp [alookup, hm]
      · simpa [alookup, hm] using ih

theorem mem_of_alookup_eq_some {α : Type} {l : List (String × α)}
    {k : String} {v : α} (h : alookup l k = some v) : (k, v) ∈ l := by
  induction l with
  | nil => simp [alookup] at h
  | cons p rest ih =>
    by_cases hk : p.1 = k
    · simp only [alookup, hk, if_true] at h
      subst hk
      rw [Option.some_inj] at h
      subst h
      simp
    · simp only [alookup, hk, if_false] at h
      exact List.mem_cons_of_mem _ (ih h)

theorem alookup_dictInsert_isSome {α : Type} (l : List (String × α))
    (k m : String) (v : α) (h : (alookup l m).isSome) :
    (alookup (dictInsert l k v) m).isSome := by
  by_cases hk : m = k
  · subst hk
    rw [alookup_dictInsert_self]
    rfl
  · rw [alookup_dictInsert_ne l k m v hk]
    exact h

theorem mem_dictInsert {α : Type} {l : List (String × α)} {k : String}
    {v : α} {p : String × α} (hp : p ∈ dictInsert l k v) :
    p ∈ l ∨ p = (k, v) := by
  unfold dictInsert at hp
  by_cases h : (alookup l k).isSome
  · simp only [h, if_true] at hp
    obtain ⟨q, hq, hfq⟩ := List.mem_map.mp hp
    by_cases hqk : q.1 = k
    · right
      rw [← hfq]
      simp [hqk]
    · left
      rw [← hfq]
      simp only [hqk, if_false]
      exact hq
  · have hnone : alookup l k = none := by
      cases hl : alookup l k with
      | none => rfl
      | some w => rw [hl] at h; simp at h
    simp only [hnone, Option.isSome_none, Bool.false_eq_true, if_false] at hp
    rcases List.mem_append.mp hp with h1 | h1
    · exact Or.inl h1
    · right
      simpa using h1

theorem mem_dictRemove {α : Type} {l : List (String × α)} {k : String}
    {p : String × α} (hp : p ∈ dictRemove l k) : p ∈ l :=
  List.mem_of_mem_filter hp

/-! ## The connector reachability invariant -/

theorem runningEnabled_init (cfg : MCPConfig) :
    RunningEnabled ⟨cfg, []⟩ := by
  intro p hp
  simp at hp

/-- Under the invariant, a tracked server's descriptor is present and
enabled. -/
theorem enabled_of_running {st : ConnState} {name : String}
    (hinv : RunningEnabled st) (h : (alookup st.running name).isSome) :
    enabledInRegistry st.config name = true := by
  obtain ⟨v, hv⟩ := mem_of_alookup_isSome h
  exact hinv (name, v) hv

/-- Under the invariant a disabled descriptor cannot be tracked as running:
only the enabled branch of `start_server` ever inserts an entry, and the
config never changes after load. -/
theorem not_running_of_disabled {st : ConnState} {name : String}
    {sc : ServerConfig} (hinv : RunningEnabled st)
    (hsc : alookup st.config.servers name = some sc)
    (hdis : sc.isEnabled = false) :
    alookup st.running name = none := by
  cases hr : alookup st.running name with
  | none => rfl
  | some v =>
    have hs : (alookup st.running name).isSome := by rw [hr]; rfl
    have he := enabled_of_running hinv hs
    simp only [enabledInRegistry, hsc] at he
    rw [hdis] at he
    exact absurd he (by simp)

theorem runningEnabled_start (st : ConnState) (name : String) (now : Nat)
    (spawn : SpawnOutcome) (hinv : RunningEnabled st) :
    RunningEnabled (start_server st name now spawn).state := by
  unfold start_server
  cases hsc : alookup st.config.servers name with
  | none => exact hinv
  | some sc =>
    by_cases hr : (alookup st.running name).isSome
    · simp only [hr, if_true]
      exact hinv
    · simp only [hr, Bool.false_eq_true, if_false]
      by_cases hd : sc.isEnabled = false
      · simp only [hd, if_true]
        exact hinv
      · simp only [hd, if_false]
        cases spawn with
        | fail msg => exact hinv
        | ok pid =>
          intro p hp
          rcases mem_dictInsert hp with h1 | h1
          · exact hinv p h1
          · subst h1
            have hen : sc.isEnabled = true := by
              cases hE : sc.isEnabled
              · exact absurd hE hd
              · rfl
            show enabledInRegistry st.config name = true
            simp only [enabledInRegistry, hsc]
            exact hen

theorem runningEnabled_stop (st : ConnState) (name : String)
    (beh : ProcBehavior) (hinv : RunningEnabled st) :
    RunningEnabled (stop_server st name beh).state := by
  unfold stop_server
  by_cases hr : (alookup st.running name).isNone
  · simp only [hr, if_true]
    exact hinv
  · simp only [hr, Bool.false_eq_true, if_false]
    cases beh with
    | exitsInGrace => exact fun p hp => hinv p (mem_dictRemove hp)
    | exitsOnKill => exact fun p hp => hinv p (mem_dictRemove hp)
    | uncontrollable msg => exact hinv

/-- A string starting with a nonempty literal is nonempty. -/
theorem append_ne_empty_left (a b : String) (ha : 0 < a.length) :
    a ++ b ≠ "" := by
  intro h
  have h2 : (a ++ b).length = 0 := by rw [h]; rfl
  rw [String.length_append] at h2
  omega

/-- Results of the `start_all_servers` fold are monotone: once a name has an
entry in the results dict, it keeps one, and an enabled registry entry always
acquires one. -/
theorem startAll_fold_mem (L : List (String × ServerConfig)) (now : Nat)
    (spawn : String → SpawnOutcome) (name : String) (sc : ServerConfig)
    (acc : List (String × Bool) × ConnState)
    (h : ((name, sc) ∈ L ∧ sc.isEnabled = true) ∨
         (alookup acc.1 name).isSome) :
    (alookup (L.foldl (startAllStep now spawn) acc).1 name).isSome := by
  induction L generalizing acc with
  | nil =>
    rcases h with ⟨hmem, _⟩ | h
    · simp at hmem
    · simpa using h
  | cons e L ih =>
    rw [List.foldl_cons]
    apply ih
    rcases h with ⟨hmem, hen⟩ | h
    · rcases List.mem_cons.mp hmem with he | hL
      · right
        rw [← he]
        simp [startAllStep, hen, alookup_dictInsert_self]
      · exact Or.inl ⟨hL, hen⟩
    · right
      unfold startAllStep
      by_cases he : e.2.isEnabled
      · simp only [he, if_true]
        exact alookup_dictInsert_isSome _ _ _ _ h
      · simp only [he, Bool.false_eq_true, if_false]
        exact h

/-! ## Demonstration fixtures used by the witnesses -/

/-- A registry with one enabled `echo` server (the §8 scenario of the spec). -/
def demoRegistry : MCPConfig :=
  ⟨[("echo", ⟨"echo", ["hi"], some true⟩)]⟩

/-- A freshly initialised connector over `demoRegistry`. -/
def demoConn : ConnState := ⟨demoRegistry, []⟩

/-- A connector over `demoRegistry` with `echo` tracked as running. -/
def demoConnRunning : ConnState :=
  ⟨demoRegistry, [("echo", ⟨7, ["echo", "hi"], 0⟩)]⟩

/-! ## Claims -/

/-- C2: for every server name, `start_server` returns false (without raising)
when the name is absent from the loaded registry or its descriptor is
disabled (a disabled descriptor is never tracked as running, by the
reachability invariant `RunningEnabled`); it returns true immediately without
launching a second process when a process for that name is already tracked as
running; otherwise it launches the descriptor's command with its arguments
and records exactly one RunningProcess entry for that name, leaving the other
names untouched. -/
theorem start_server_contract (st : ConnState) (name : String)
    (now pid : Nat) (hinv : RunningEnabled st) :
    (∀ spawn, alookup st.config.servers name = none →
      start_server st name now spawn = ⟨false, st, false⟩) ∧
    (∀ spawn sc, alookup st.config.servers name = some sc →
      sc.isEnabled = false →
      start_server st name now spawn = ⟨false, st, false⟩) ∧
    (∀ spawn, (alookup st.running name).isSome →
      start_server st name now spawn = ⟨true, st, false⟩) ∧
    (∀ sc, alookup st.config.servers name = some sc →
      sc.isEnabled = true → alookup st.running name = none →
      start_server st name now (.ok pid) =
        ⟨true,
         { st with running :=
             dictInsert st.running name ⟨pid, sc.command :: sc.args, now⟩ },
         true⟩ ∧
      alookup (start_server st name now (.ok pid)).state.running name =
        some ⟨pid, sc.command :: sc.args, now⟩ ∧
      countKey (start_server st name now (.ok pid)).state.running name = 1 ∧
      (∀ m, m ≠ name →
        alookup (start_server st name now (.ok pid)).state.running m =
          alookup st.running m)) := by
  refine ⟨?_, ?_, ?_, ?_⟩
  · intro spawn h
    simp [start_server, h]
  · intro spawn sc hsc hdis
    have hnr := not_running_of_disabled hinv hsc hdis
    simp [start_server, hsc, hnr, hdis]
  · intro spawn h
    have he := enabled_of_running hinv h
    cases hsc : alookup st.config.servers name with
    | none =>
      simp only [enabledInRegistry, hsc] at he
      exact absurd he (by simp)
    | some sc =>
      simp [start_server, hsc, h]
  · intro sc hsc hen hnr
    have heq : start_server st name now (.ok pid) =
        ⟨true,
         { st with running :=
             dictInsert st.running name ⟨pid, sc.command :: sc.args, now⟩ },
         true⟩ := by
      simp [start_server, hsc, hnr, hen]
    refine ⟨heq, ?_, ?_, ?_⟩
    · rw [heq]
      exact alookup_dictInsert_self _ _ _
    · rw [heq]
      exact countKey_dictInsert_of_alookup_none _ _ _ hnr
    · intro m hm
      rw [heq]
      exact alookup_dictInsert_ne _ _ _ _ hm

/-- C2 witness: on the demo registry, an unknown name is rejected, a tracked
name short-circuits to true without launching, and a fresh start launches and
records exactly one entry. -/
theorem start_server_contract_witness :
    start_server demoConn "nope" 0 (.ok 9) = ⟨false, demoConn, false⟩ ∧
    start_server demoConnRunning "echo" 0 (.ok 9) =
      ⟨true, demoConnRunning, false⟩ ∧
    (start_server demoConn "echo" 0 (.ok 9)).result = true ∧
    (start_server demoConn "echo" 0 (.ok 9)).launched = true ∧
    countKey (start_server demoConn "echo" 0 (.ok 9)).state.running
      "echo" = 1 := by
  have h1 := start_server_contract demoConn "nope" 0 9 (by decide)
  have h2 := start_server_contract demoConnRunning "echo" 0 9 (by decide)
  have h3 := start_server_contract demoConn "echo" 0 9 (by decide)
  have h4 := h3.2.2.2 ⟨"echo", ["hi"], some true⟩ (by decide) (by decide)
    (by decide)
  exact ⟨h1.1 (.ok 9) (by decide), h2.2.2.1 (.ok 9) (by decide),
    by rw [h4.1], by rw [h4.1], h4.2.2.1⟩

/-- C3: for every server name, `stop_server` returns true with no side
effects when the name is not tracked; when it is tracked it requests graceful
termination, waits up to the 5-second grace period, forces a kill if the
process has not exited, removes the RunningProcess entry (and only it) after
the exit is confirmed, and returns false — leaving the entry in place — only
when termination could not be confirmed. -/
theorem stop_server_contract (st : ConnState) (name : String) :
    (∀ beh, alookup st.running name = none →
      stop_server st name beh = ⟨true, st, []⟩) ∧
    ((alookup st.running name).isSome →
      (stop_server st name .exitsInGrace).result = true ∧
      (stop_server st name .exitsInGrace).events =
        [.terminate, .waitGrace 5] ∧
      alookup (stop_server st name .exitsInGrace).state.running name =
        none ∧
      (∀ m, m ≠ name →
        alookup (stop_server st name .exitsInGrace).state.running m =
          alookup st.running m)) ∧
    ((alookup st.running name).isSome →
      (stop_server st name .exitsOnKill).result = true ∧
      (stop_server st name .exitsOnKill).events =
        [.terminate, .waitGrace 5, .kill, .waitExit] ∧
      alookup (stop_server st name .exitsOnKill).state.running name =
        none ∧
      (∀ m, m ≠ name →
        alookup (stop_server st name .exitsOnKill).state.running m =
          alookup st.running m)) ∧
    (∀ beh, (stop_server st name beh).result = false →
      (∃ msg, beh = .uncontrollable msg) ∧
      (stop_server st name beh).state = st) := by
  refine ⟨?_, ?_, ?_, ?_⟩
  · intro beh h
    simp [stop_server, h]
  · intro h
    cases hr : alookup st.running name with
    | none => rw [hr] at h; simp at h
    | some v =>
      have heq : stop_server st name .exitsInGrace =
          ⟨true, { st with running := dictRemove st.running name },
           [.terminate, .waitGrace 5]⟩ := by
        simp [stop_server, hr]
      refine ⟨by rw [heq], by rw [heq], ?_, ?_⟩
      · rw [heq]
        exact alookup_dictRemove_self _ _
      · intro m hm
        rw [heq]
        exact alookup_dictRemove_ne _ _ _ hm
  · intro h
    cases hr : alookup st.running name with
    | none => rw [hr] at h; simp at h
    | some v =>
      have heq : stop_server st name .exitsOnKill =
          ⟨true, { st with running := dictRemove st.running name },
           [.terminate, .waitGrace 5, .kill, .waitExit]⟩ := by
        simp [stop_server, hr]
      refine ⟨by rw [heq], by rw [heq], ?_, ?_⟩
      · rw [heq]
        exact alookup_dictRemove_self _ _
      · intro m hm
        rw [heq]
        exact alookup_dictRemove_ne _ _ _ hm
  · intro beh hf
    cases hr : alookup st.running name with
    | none => simp [stop_server, hr] at hf
    | some v =>
      cases beh with
      | exitsInGrace => simp [stop_server, hr] at hf
      | exitsOnKill => simp [stop_server, hr] at hf
      | uncontrollable msg =>
        exact ⟨⟨msg, rfl⟩, by simp [stop_server, hr]⟩

/-- C3 witness: stopping an untracked name is a no-op returning true;
stopping the tracked `echo` removes it (gracefully and via kill); a stop
whose termination cannot be confirmed returns false and keeps the entry. -/
theorem stop_server_contract_witness :
    stop_server demoConn "echo" .exitsInGrace = ⟨true, demoConn, []⟩ ∧
    (stop_server demoConnRunning "echo" .exitsInGrace).result = true ∧
    alookup (stop_server demoConnRunning "echo" .exitsInGrace).state.running
      "echo" = none ∧
    (stop_server demoConnRunning "echo" .exitsOnKill).events =
      [.terminate, .waitGrace 5, .kill, .waitExit] ∧
    (∃ msg, (ProcBehavior.uncontrollable "EPERM") =
      ProcBehavior.uncontrollable msg) ∧
    (stop_server demoConnRunning "echo" (.uncontrollable "EPERM")).state =
      demoConnRunning := by
  have h1 := stop_server_contract demoConn "echo"
  have h2 := stop_server_contract demoConnRunning "echo"
  have hg := h2.2.1 (by decide)
  have hk := h2.2.2.1 (by decide)
  have hu := h2.2.2.2 (.uncontrollable "EPERM") (by decide)
  exact ⟨h1.1 .exitsInGrace (by decide), hg.1, hg.2.2.1, hk.2.1,
    hu.1, hu.2⟩

/-- C8 counterexample: parseable but schema-violating configurations do not
degrade — they raise uncaught exceptions.  For the parsed config `{}`,
`get_available_servers` and `start_server` both raise `KeyError: mcp`
(`self.config["mcp"]` at lines 160 and 46); for
`{"mcp": {"servers": {"x": 42}}}` — a malformed server entry —
`start_server "x"` passes the membership and running checks and then raises
`AttributeError` at line 55 (`.get` on an int), outside the `try`. -/
theorem config_schema_violation_raises :
    get_available_servers_raw (load_config (.parsed (.dict []))) =
      .error (.keyError "mcp") ∧
    start_server_raw (load_config (.parsed (.dict []))) [] "echo" 0
      (.ok 1) = .error (.keyError "mcp") ∧
    start_server_raw
      (load_config (.parsed (.dict [("mcp",
        .dict [("servers", .dict [("x", .num 42)])])])))
      [] "x" 0 (.ok 1) = .error (.attributeError "get") := by
  refine ⟨rfl, rfl, rfl⟩

/-- C8 (amended): a configuration input that is missing or fails to parse
degrades to the empty default registry — `get_available_servers` returns the
empty list and `start_server` returns false, launching nothing and leaving
`running_servers` unchanged, for every name; but an input that parses while
violating the schema instead makes these operations raise an uncaught
KeyError/TypeError/AttributeError (see the counterexample). -/
theorem config_error_empty_registry (src : ConfigSource)
    (h : src = .missing ∨ ∃ e, src = .unparseable e) :
    get_available_servers_raw (load_config src) = .ok [] ∧
    ∀ running name now spawn,
      start_server_raw (load_config src) running name now spawn =
        .ok ⟨false, running, false⟩ := by
  have hload : load_config src = defaultConfigVal := by
    rcases h with h | ⟨e, h⟩ <;> subst h <;> rfl
  rw [hload]
  refine ⟨rfl, ?_⟩
  intro running name now spawn
  rfl

/-- C8 witness: a missing config file yields no available servers and an
always-false, state-preserving `start_server`. -/
theorem config_error_empty_registry_witness :
    get_available_servers_raw (load_config .missing) = .ok [] ∧
    start_server_raw (load_config .missing) [] "echo" 0 (.ok 1) =
      .ok ⟨false, [], false⟩ := by
  have h := config_error_empty_registry .missing (Or.inl rfl)
  exact ⟨h.1, h.2 [] "echo" 0 (.ok 1)⟩

/-- C9: the status query returns the stored record `{status, result?, error?}`
when the task id is present, and a 404 NotFound error when it is unknown. -/
theorem get_task_status_contract (tasks : List (String × TaskRecord))
    (taskId : String) :
    (alookup tasks taskId = none →
      get_task_status tasks taskId =
        .error ⟨404, "Task " ++ taskId ++ " not found"⟩) ∧
    (∀ t, alookup tasks taskId = some t →
      get_task_status tasks taskId =
        .ok ⟨taskId, t.status, t.result, t.error⟩) := by
  constructor
  · intro h
    simp [get_task_status, h]
  · intro t h
    simp [get_task_status, h]

/-- C9 witness: a present id returns its record, an unknown id returns 404. -/
theorem get_task_status_contract_witness :
    get_task_status [("t1", ⟨"completed", some "ok", none⟩)] "t1" =
      .ok ⟨"t1", "completed", some "ok", none⟩ ∧
    get_task_status [("t1", ⟨"completed", some "ok", none⟩)] "t2" =
      .error ⟨404, "Task " ++ "t2" ++ " not found"⟩ := by
  have h := get_task_status_contract
    [("t1", ⟨"completed", some "ok", none⟩)] "t1"
  have h2 := get_task_status_contract
    [("t1", ⟨"completed", some "ok", none⟩)] "t2"
  exact ⟨h.2 ⟨"completed", some "ok", none⟩ (by decide), h2.1 (by decide)⟩

/-- C10: a server descriptor whose configuration entry lacks the `enabled`
key is treated as enabled: `start_server` never rejects it as disabled (it
returns true whether the name is tracked or freshly launched), and
`start_all_servers` includes it among the servers it attempts (its name gets
an entry in the results dict). -/
theorem missing_enabled_defaults_true (st : ConnState) (name : String)
    (sc : ServerConfig) (now pid : Nat) (spawn : String → SpawnOutcome)
    (hsc : alookup st.config.servers name = some sc)
    (hen : sc.enabled = none) :
    sc.isEnabled = true ∧
    ((alookup st.running name).isSome →
      (start_server st name now (.ok pid)).result = true) ∧
    (alookup st.running name = none →
      (start_server st name now (.ok pid)).result = true) ∧
    (alookup (start_all_servers st now spawn).1 name).isSome := by
  have hE : sc.isEnabled = true := by
    simp [ServerConfig.isEnabled, hen]
  refine ⟨hE, ?_, ?_, ?_⟩
  · intro h
    simp [start_server, hsc, h]
  · intro h
    simp [start_server, hsc, h, hE]
  · exact startAll_fold_mem _ now spawn name sc ([], st)
      (Or.inl ⟨mem_of_alookup_eq_some hsc, hE⟩)

/-- C10 witness: a registry entry without the `enabled` key is started by
`start_all_servers` and accepted by `start_server`. -/
theorem missing_enabled_defaults_true_witness :
    (ServerConfig.mk "echo" ["hi"] none).isEnabled = true ∧
    (start_server ⟨⟨[("echo", ⟨"echo", ["hi"], none⟩)]⟩, []⟩ "echo" 0
      (.ok 3)).result = true ∧
    (alookup (start_all_servers ⟨⟨[("echo", ⟨"echo", ["hi"], none⟩)]⟩, []⟩ 0
      (fun _ => .ok 3)).1 "echo").isSome := by
  have h := missing_enabled_defaults_true
    ⟨⟨[("echo", ⟨"echo", ["hi"], none⟩)]⟩, []⟩ "echo"
    ⟨"echo", ["hi"], none⟩ 0 3 (fun _ => .ok 3) (by decide) rfl
  exact ⟨h.1, h.2.2.1 (by decide), h.2.2.2⟩

/-- Shape of every task history: the queued record, the running record, and a
terminal record that is either completed-with-result or failed-with-error. -/
theorem traceShape (agents : List (String × AgentModel)) (an mn : String) :
    ∃ r2, taskTrace agents an mn =
      [⟨"queued", none, none⟩, ⟨"running", none, none⟩, r2] ∧
      ((r2.status = "completed" ∧ r2.result.isSome ∧ r2.error = none) ∨
       (r2.status = "failed" ∧ r2.error.isSome ∧ r2.result = none)) := by
  cases hag : alookup agents an with
  | none =>
    refine ⟨⟨"failed", none, some ("Unknown agent: " ++ an)⟩, ?_,
      Or.inr ⟨rfl, rfl, rfl⟩⟩
    unfold taskTrace run_agent_task initRecord
    simp [hag]
  | some ag =>
    cases hm : alookup ag.methods mn with
    | none =>
      refine ⟨⟨"failed", none,
        some ("Unknown method: " ++ mn ++ " for agent " ++ an)⟩, ?_,
        Or.inr ⟨rfl, rfl, rfl⟩⟩
      unfold taskTrace run_agent_task initRecord
      simp [hag, hm]
    | some outcome =>
      cases outcome with
      | success res =>
        refine ⟨⟨"completed", some res, none⟩, ?_, Or.inl ⟨rfl, rfl, rfl⟩⟩
        unfold taskTrace run_agent_task initRecord
        simp [hag, hm]
      | failure msg =>
        refine ⟨⟨"failed", none, some msg⟩, ?_, Or.inr ⟨rfl, rfl, rfl⟩⟩
        unfold taskTrace run_agent_task initRecord
        simp [hag, hm]

/-- C1: every task record transitions forward-only through the state machine
queued → running → (completed | failed): adjacent records of the history obey
the machine, exactly one terminal record occurs, no record after a terminal
one is queued or running, a completed record has result set and error unset,
a failed record has error set and result unset, and the history ends
terminal. -/
theorem task_record_forward_only (agents : List (String × AgentModel))
    (agentName methodName : String) :
    (taskTrace agents agentName methodName).Chain' stepOK ∧
    ((taskTrace agents agentName methodName).filter
      (fun r => isTerminalRec r)).length = 1 ∧
    (taskTrace agents agentName methodName).Pairwise
      (fun r s => isTerminalRec r = true →
        s.status ≠ "queued" ∧ s.status ≠ "running") ∧
    ((finalTask agents agentName methodName).status = "completed" →
      (finalTask agents agentName methodName).result.isSome ∧
      (finalTask agents agentName methodName).error = none) ∧
    ((finalTask agents agentName methodName).status = "failed" →
      (finalTask agents agentName methodName).error.isSome ∧
      (finalTask agents agentName methodName).result = none) ∧
    isTerminalRec (finalTask agents agentName methodName) = true := by
  obtain ⟨r2, htr, hr2⟩ := traceShape agents agentName methodName
  have hfin : finalTask agents agentName methodName = r2 := by
    unfold finalTask
    rw [htr]
    rfl
  have hst : r2.status = "completed" ∨ r2.status = "failed" := by
    rcases hr2 with ⟨h, _, _⟩ | ⟨h, _, _⟩
    · exact Or.inl h
    · exact Or.inr h
  have h2 : isTerminalRec r2 = true := by
    rcases hst with h | h <;> simp [isTerminalRec, h]
  rw [htr, hfin]
  refine ⟨?_, ?_, ?_, ?_, ?_, h2⟩
  · simp only [List.chain'_cons, List.chain'_singleton, and_true]
    exact ⟨Or.inl ⟨rfl, rfl⟩, Or.inr ⟨rfl, hst⟩⟩
  · have hq : isTerminalRec ⟨"queued", none, none⟩ = false := rfl
    have hr : isTerminalRec ⟨"running", none, none⟩ = false := rfl
    simp [List.filter_cons, hq, hr, h2]
  · refine List.Pairwise.cons ?_ (List.Pairwise.cons ?_ ?_)
    · intro s hs hterm
      simp [isTerminalRec] at hterm
    · intro s hs hterm
      simp [isTerminalRec] at hterm
    · exact List.pairwise_singleton _ _
  · intro h
    rcases hr2 with ⟨hs, hres, herr⟩ | ⟨hs, herr, hres⟩
    · exact ⟨hres, herr⟩
    · exact absurd (h.symm.trans hs) (by decide)
  · intro h
    rcases hr2 with ⟨hs, hres, herr⟩ | ⟨hs, herr, hres⟩
    · exact absurd (h.symm.trans hs) (by decide)
    · exact ⟨herr, hres⟩

/-- The agent registry built by the application lifespan, as `run_agent_task`
sees it for one representative method call. -/
def demoAgents : List (String × AgentModel) :=
  [("game_server", ⟨[("deploy_game_server", .success "deployed")]⟩)]

/-- C1 witness: for a successful deployment task the three-record history
obeys the state machine and the final record is completed with its result
set. -/
theorem task_record_forward_only_witness :
    (taskTrace demoAgents "game_server" "deploy_game_server").Chain'
      stepOK ∧
    (finalTask demoAgents "game_server" "deploy_game_server").result.isSome ∧
    isTerminalRec (finalTask demoAgents "game_server" "deploy_game_server") =
      true := by
  have h := task_record_forward_only demoAgents "game_server"
    "deploy_game_server"
  exact ⟨h.1, (h.2.2.2.1 (by decide)).1, h.2.2.2.2.2⟩

/-- C6: a task whose operation reference names an unknown agent or an unknown
method reaches status failed with a non-empty error and no result; the
executor itself always terminates with a record (the exception is caught). -/
theorem unknown_operation_fails (agents : List (String × AgentModel))
    (agentName methodName : String)
    (h : alookup agents agentName = none ∨
         ∃ ag, alookup agents agentName = some ag ∧
               alookup ag.methods methodName = none) :
    (finalTask agents agentName methodName).status = "failed" ∧
    (∃ e, (finalTask agents agentName methodName).error = some e ∧
      e ≠ "") ∧
    (finalTask agents agentName methodName).result = none := by
  rcases h with h | ⟨ag, hag, hm⟩
  · have hfin : finalTask agents agentName methodName =
        ⟨"failed", none, some ("Unknown agent: " ++ agentName)⟩ := by
      unfold finalTask taskTrace run_agent_task
      simp [h, initRecord]
    rw [hfin]
    exact ⟨rfl, ⟨_, rfl, append_ne_empty_left _ _ (by decide)⟩, rfl⟩
  · have hfin : finalTask agents agentName methodName =
        ⟨"failed", none,
         some ("Unknown method: " ++ methodName ++ " for agent "
           ++ agentName)⟩ := by
      unfold finalTask taskTrace run_agent_task
      simp [hag, hm, initRecord]
    rw [hfin]
    refine ⟨rfl, ⟨_, rfl, ?_⟩, rfl⟩
    apply append_ne_empty_left
    rw [String.length_append]
    have hpos : 0 < (" for agent ").length := by decide
    omega

/-- C6 witness: submitting against an unknown agent fails with the non-empty
`Unknown agent` message and no result. -/
theorem unknown_operation_fails_witness :
    (finalTask demoAgents "nope" "deploy_game_server").status = "failed" ∧
    (finalTask demoAgents "nope" "deploy_game_server").result = none := by
  have h := unknown_operation_fails demoAgents "nope" "deploy_game_server"
    (Or.inl (by decide))
  exact ⟨h.1, h.2.2⟩

/-! ## C4 fixture: the shallow-copy aliasing scenario -/

/-- One queued task `t1` stored at heap cell 0, one connected subscriber,
nothing broadcast yet (`last_tasks = {}`). -/
def aliasState0 : LoopState :=
  ⟨[⟨"queued", none, none⟩], [("t1", 0)], [], 1, []⟩

/-- After the first loop tick: the queued snapshot was broadcast and
`last_tasks = active_tasks.copy()` now shares the record object. -/
def aliasState1 : LoopState := updatesTick aliasState0

/-- `run_agent_task` then mutates the shared record in place to completed. -/
def aliasState2 : LoopState :=
  mutateRecord aliasState1 0 ⟨"completed", some "ok", none⟩

/-- The next loop tick. -/
def aliasState3 : LoopState := updatesTick aliasState2

/-- C4: the claim fails on the code.  `last_tasks = active_tasks.copy()`
(line 209) is a shallow copy, so after the first broadcast both dicts
reference the same record objects; the in-place status mutation made by
`run_agent_task` changes both sides of the `active_tasks != last_tasks`
comparison (line 203) at once.  On the tick after `t1` flips from queued to
completed, a subscriber is connected and the current snapshot differs
structurally from the last snapshot successfully broadcast, yet no broadcast
happens: the broadcast log still holds only the original queued snapshot. -/
theorem broadcast_task_updates_misses_change :
    aliasState1.broadcasts = [[("t1", ⟨"queued", none, none⟩)]] ∧
    aliasState2.connections = 1 ∧
    lastBroadcastValue aliasState2 =
      some [("t1", ⟨"queued", none, none⟩)] ∧
    snapshotOf aliasState2.heap aliasState2.tasks =
      [("t1", ⟨"completed", some "ok", none⟩)] ∧
    snapshotOf aliasState2.heap aliasState2.tasks ≠
      [("t1", ⟨"queued", none, none⟩)] ∧
    aliasState3.broadcasts = aliasState1.broadcasts := by
  refine ⟨?_, ?_, ?_, ?_, ?_, ?_⟩ <;> decide

/-! ## C5: `ConnectionManager.broadcast` does not isolate send failures -/

/-- C5: the claim fails on the code.  With two subscribers where the first
send raises, `broadcast` (lines 46–48) propagates the exception out of the
loop: the healthy second subscriber receives nothing on that broadcast, and
the failing subscriber is not removed from `active_connections`. -/
theorem cm_broadcast_not_isolated :
    (cm_broadcast [⟨0, false⟩, ⟨1, true⟩]).raised = some 0 ∧
    (cm_broadcast [⟨0, false⟩, ⟨1, true⟩]).delivered = [] ∧
    (cm_broadcast [⟨0, false⟩, ⟨1, true⟩]).connsAfter =
      [⟨0, false⟩, ⟨1, true⟩] := by
  refine ⟨?_, ?_, ?_⟩ <;> decide

/-! ## C7: two concurrent `start_server` calls for the same name -/

/-- A phase that has returned. -/
def phaseIsDone : StartPhase → Bool
  | .done _ _ => true
  | _ => false

/-- The boolean a finished phase returned (true for unfinished phases). -/
def phaseResult : StartPhase → Bool
  | .done r _ => r
  | _ => true

/-- Invariant of the race: a call only finishes once the contested name is
tracked (either it observed the entry at line 50 or it wrote the entry at
line 67), the entry is never removed during the race, and every finished call
returned true. -/
def raceInv (st : RaceState) : Prop :=
  (phaseIsDone st.a = true → st.tracked.isSome = true) ∧
  (phaseIsDone st.b = true → st.tracked.isSome = true) ∧
  phaseResult st.a = true ∧ phaseResult st.b = true

/-- One segment of one call preserves its local part of the invariant and
never clears the tracked entry. -/
theorem phaseStep_ok (pid : Nat) (ph : StartPhase) (tr : Option Nat)
    (ln : Nat) (hdone : phaseIsDone ph = true → tr.isSome = true)
    (hres : phaseResult ph = true) :
    (phaseIsDone (phaseStep pid ph tr ln).1 = true →
      (phaseStep pid ph tr ln).2.1.isSome = true) ∧
    phaseResult (phaseStep pid ph tr ln).1 = true ∧
    (tr.isSome = true → (phaseStep pid ph tr ln).2.1.isSome = true) := by
  cases ph with
  | ready =>
    by_cases ht : tr.isSome = true
    · simp [phaseStep, ht, phaseIsDone, phaseResult]
    · simp [phaseStep, ht, phaseIsDone, phaseResult]
  | spawning p => simp [phaseStep, phaseIsDone, phaseResult]
  | done r l =>
    refine ⟨fun _ => hdone (by simp [phaseIsDone]), ?_, fun h => h⟩
    simpa [phaseStep, phaseResult] using hres

theorem raceStep_false_eq (st : RaceState) :
    raceStep st false =
      { st with b := (phaseStep 2 st.b st.tracked st.launches).1,
                tracked := (phaseStep 2 st.b st.tracked st.launches).2.1,
                launches := (phaseStep 2 st.b st.tracked st.launches).2.2 } :=
  rfl

theorem raceStep_true_eq (st : RaceState) :
    raceStep st true =
      { st with a := (phaseStep 1 st.a st.tracked st.launches).1,
                tracked := (phaseStep 1 st.a st.tracked st.launches).2.1,
                launches := (phaseStep 1 st.a st.tracked st.launches).2.2 } :=
  rfl

theorem raceInv_step (st : RaceState) (c : Bool) (h : raceInv st) :
    raceInv (raceStep st c) := by
  obtain ⟨h1, h2, h3, h4⟩ := h
  cases c
  · have hb := phaseStep_ok 2 st.b st.tracked st.launches h2 h4
    rw [raceStep_false_eq]
    exact ⟨fun hd => hb.2.2 (h1 hd), hb.1, h3, hb.2.1⟩
  · have ha := phaseStep_ok 1 st.a st.tracked st.launches h1 h3
    rw [raceStep_true_eq]
    exact ⟨ha.1, fun hd => ha.2.2 (h2 hd), ha.2.1, h4⟩

theorem raceInv_exec (sched : List Bool) : raceInv (raceExec sched) := by
  unfold raceExec
  have hgen : ∀ (st : RaceState), raceInv st →
      raceInv (sched.foldl raceStep st) := by
    induction sched with
    | nil => exact fun st h => h
    | cons c rest ih =>
      intro st h
      rw [List.foldl_cons]
      exact ih _ (raceInv_step st c h)
  exact hgen _ (by simp [raceInv, phaseIsDone, phaseResult])

/-- C7 counterexample: under the schedule A-check, B-check, A-record,
B-record — both calls pass the line-50 `running_servers` check before either
records its entry — two subprocesses are launched, so the claim's "exactly
one launched process" is false; only the second call's pid stays tracked and
both calls return true. -/
theorem concurrent_start_double_launch :
    (raceExec [true, false, true, false]).launches = 2 ∧
    (raceExec [true, false, true, false]).a = .done true true ∧
    (raceExec [true, false, true, false]).b = .done true true ∧
    (raceExec [true, false, true, false]).tracked = some 2 := by
  refine ⟨?_, ?_, ?_, ?_⟩ <;> decide

/-- C7 (amended): under every interleaving of the two calls, once both have
finished they have both returned true and exactly one `running_servers` entry
is tracked for the name; but the number of launched processes is not bounded
by one (see the counterexample). -/
theorem concurrent_start_single_tracked (sched : List Bool)
    (ra la rb lb : Bool)
    (ha : (raceExec sched).a = .done ra la)
    (hb : (raceExec sched).b = .done rb lb) :
    ra = true ∧ rb = true ∧ (raceExec sched).tracked.isSome = true := by
  obtain ⟨h1, h2, h3, h4⟩ := raceInv_exec sched
  rw [ha] at h1 h3
  rw [hb] at h4
  exact ⟨by simpa [phaseResult] using h3, by simpa [phaseResult] using h4,
    h1 (by simp [phaseIsDone])⟩

/-- C7 witness: on the fully sequential schedule the amended conclusion is
concrete — both calls return true, one entry tracked. -/
theorem concurrent_start_single_tracked_witness :
    (raceExec [true, true, false, false]).a = .done true true ∧
    (raceExec [true, true, false, false]).b = .done true false ∧
    true = true ∧ true = true ∧
    (raceExec [true, true, false, false]).tracked.isSome = true := by
  have h := concurrent_start_single_tracked [true, true, false, false]
    true true true false (by decide) (by decide)
  exact ⟨by decide, by decide, h.1, h.2.1, h.2.2⟩
